import Mathlib

/-!
Verification of the trading-algorithm repository against its specification.

The development shallowly embeds the core of
src/trading_algorithm/backtesting.py (and the identical annualized_return of
src/trading_algorithm/arr.py):

* prices and fund amounts are modelled as exact rationals;
* dates are modelled as integers counting days from a fixed Monday
  (weekday of a date d is d % 7, with 0 = Monday, ..., 5 = Saturday,
  6 = Sunday), matching the calendar structure pandas.offsets.BDay uses;
* the merged data frame produced by merge_data is a list of rows ordered as
  in the frame; positional indexing replaces index.get_loc, which agrees
  with it because dates in the merged frame are unique;
* NaN indicator cells (pandas) are modelled as Option.none.

Where a claim is decided by floating-point representation rather than by
exact arithmetic, an explicit model of IEEE-754 binary64 rounding over the
rationals is used for the concrete literals involved (see roundF64 below).
-/

/-- A row of the merged data frame before indicators are attached
(columns Date, Open_tecl, OPEN_vix; remaining price columns are unused by
the functions under verification). -/
structure MergedRow where
  date : ℤ
  Open_tecl : ℚ
  OPEN_vix : ℚ
  deriving DecidableEq

/-- A row of the merged data frame after calculate_indicators: the two
indicator columns SMA_tecl and WMA_vix are attached; none models NaN. -/
structure Row where
  date : ℤ
  Open_tecl : ℚ
  OPEN_vix : ℚ
  SMA_tecl : Option ℚ
  WMA_vix : Option ℚ
  deriving DecidableEq

/-- The action field of a trade record appended by backtest_trading:
sell is the string "sell", buyImmediate is "buy (immediate low TECL)",
buyConditional is "buy (with VIX condition)". -/
inductive TradeAction where
  | buyImmediate
  | buyConditional
  | sell
  deriving DecidableEq

/-- A trade record appended to the trades list by backtest_trading.
Sell records carry the bank value; buy records do not (bank = none). -/
structure TradeRecord where
  date : ℤ
  action : TradeAction
  price : ℚ
  fund : ℚ
  bank : Option ℚ
  deriving DecidableEq

/-- The mutable state of the backtest loop: fund, bank, in_position,
purchase_price and last_sell_date of backtest_trading. -/
structure BTState where
  fund : ℚ
  bank : ℚ
  in_position : Bool
  purchase_price : Option ℚ
  last_sell_date : Option ℤ
  deriving DecidableEq

/-- The arithmetic mean used by pandas rolling(...).mean(). -/
def meanList (xs : List ℚ) : ℚ := xs.sum / xs.length

/-- The weight vector np.arange(1, 31): weights 1, 2, ..., 30 applied to the
rolling window in chronological order (oldest first). -/
def weightsList : List ℚ := (List.range 30).map (fun k => ((k + 1 : ℕ) : ℚ))

/-- np.dot(x, weights) / weights.sum() applied to a window x in
chronological order: the weighted-moving-average kernel of
calculate_indicators. -/
def wmaFn (xs : List ℚ) : ℚ := (List.zipWith (fun a b => a * b) xs weightsList).sum / weightsList.sum

/-- pandas Series.rolling(window = w, min_periods = w).apply(f): position j
holds f of the window of the w entries ending at j when j + 1 >= w, and NaN
(none) before that. -/
def rollingApply (f : List ℚ → ℚ) (w : ℕ) (xs : List ℚ) : List (Option ℚ) :=
  (List.range xs.length).map
    (fun j => if w ≤ j + 1 then some (f ((xs.drop (j + 1 - w)).take w)) else none)

/-- pandas Series.shift(1): position i receives the value previously at
position i - 1; position 0 becomes NaN; the length is unchanged. -/
def shift1 (xs : List (Option ℚ)) : List (Option ℚ) := (none :: xs).take xs.length

/-- calculate_indicators (backtesting.py, lines 62-85): attaches the
30-day rolling SMA of Open_tecl and the 30-day linearly-weighted rolling
WMA of OPEN_vix, both then shifted by one row so that row T only sees data
of rows T-30 .. T-1. -/
def calculate_indicators (df : List MergedRow) : List Row :=
  let sma := shift1 (rollingApply meanList 30 (df.map MergedRow.Open_tecl))
  let wma := shift1 (rollingApply wmaFn 30 (df.map MergedRow.OPEN_vix))
  df.enum.map (fun p =>
    { date := p.2.date
      Open_tecl := p.2.Open_tecl
      OPEN_vix := p.2.OPEN_vix
      SMA_tecl := (sma[p.1]?).getD none
      WMA_vix := (wma[p.1]?).getD none })

/-- pandas offsets: d + BDay(1) on the integer-day calendar with
weekday d % 7 (0 = Monday): Friday jumps to Monday, Saturday rolls to
Monday, every other day advances by one. -/
def nextBusinessDay (d : ℤ) : ℤ :=
  if d % 7 = 4 then d + 3 else if d % 7 = 5 then d + 2 else d + 1

/-- The post-sell cooldown test of backtest_trading line 297:
last_sell_date is not None and current_date equals
last_sell_date + BDay(1). -/
def isCooldown : Option ℤ → ℤ → Bool
  | some d, cur => decide (cur = nextBusinessDay d)
  | none, _ => false

/-- The VIX look-back condition of backtest_trading lines 320-325: the row
4 positions earlier in the merged frame exists and its OPEN_vix exceeds
1.04 times its (already shifted) WMA_vix; a NaN WMA_vix there makes the
comparison false, as in numpy. -/
def vixSignal (df : List Row) (i : ℕ) : Bool :=
  if 4 ≤ i then
    match df.get? (i - 4) with
    | some prev =>
      match prev.WMA_vix with
      | some w => decide ((1.04 : ℚ) * w < prev.OPEN_vix)
      | none => false
    | none => false
  else false

/-- The state update of the sell branch (backtesting.py lines 270-292):
profit = fund * (price / purchase_price) - fund, bank += 0.2 * profit,
fund *= price / purchase_price, position cleared, last_sell_date set. -/
def sellStep (s : BTState) (r : Row) (pp : ℚ) : BTState :=
  { fund := s.fund * (r.Open_tecl / pp)
    bank := s.bank + (s.fund * (r.Open_tecl / pp) - s.fund) * (0.2 : ℚ)
    in_position := false
    purchase_price := none
    last_sell_date := some r.date }

/-- The trade record appended by the sell branch: it carries the already
updated fund and bank. -/
def sellRec (s : BTState) (r : Row) (pp : ℚ) : TradeRecord :=
  { date := r.date
    action := TradeAction.sell
    price := r.Open_tecl
    fund := s.fund * (r.Open_tecl / pp)
    bank := some (s.bank + (s.fund * (r.Open_tecl / pp) - s.fund) * (0.2 : ℚ)) }

/-- The state update of either buy branch: purchase_price := priceA,
in_position := True; fund, bank and last_sell_date are untouched. -/
def buyStep (s : BTState) (r : Row) : BTState :=
  { s with in_position := true, purchase_price := some r.Open_tecl }

/-- The trade record appended by the immediate-buy branch (fund unchanged,
no bank entry). -/
def buyRecImmediate (s : BTState) (r : Row) : TradeRecord :=
  { date := r.date, action := TradeAction.buyImmediate, price := r.Open_tecl,
    fund := s.fund, bank := none }

/-- The trade record appended by the conditional-buy branch. -/
def buyRecConditional (s : BTState) (r : Row) : TradeRecord :=
  { date := r.date, action := TradeAction.buyConditional, price := r.Open_tecl,
    fund := s.fund, bank := none }

/-- One iteration of the backtest_trading loop body (lines 258-343) on the
row r sitting at position i of the merged frame df: returns the state after
the iteration and the trade record appended during it, if any.
Mirrors the control flow: skip on NaN indicators; in a position only the
sell rule runs; out of a position the cooldown gate runs, then the
immediate-buy rule, then the conditional-buy rule. -/
def stepRow (df : List Row) (i : ℕ) (r : Row) (s : BTState) : BTState × Option TradeRecord :=
  match r.SMA_tecl, r.WMA_vix with
  | some sma, some _ =>
    if s.in_position then
      match s.purchase_price with
      | some pp =>
        if pp * (1.058 : ℚ) ≤ r.Open_tecl then (sellStep s r pp, some (sellRec s r pp))
        else (s, none)
      | none => (s, none)
    else if isCooldown s.last_sell_date r.date then (s, none)
    else if r.Open_tecl < (0.75 : ℚ) * sma then (buyStep s r, some (buyRecImmediate s r))
    else if r.Open_tecl < (1.25 : ℚ) * sma ∧ vixSignal df i = true then
      (buyStep s r, some (buyRecConditional s r))
    else (s, none)
  | _, _ => (s, none)

/-- The backtest loop folded over the (position, row) pairs of the merged
frame, accumulating the appended trade records in order. -/
def btGo (df : List Row) : List (ℕ × Row) → BTState → BTState × List TradeRecord
  | [], s => (s, [])
  | p :: rest, s =>
    let st := stepRow df p.1 p.2 s
    let next := btGo df rest st.1
    (next.1, st.2.toList ++ next.2)

/-- The initial loop state of backtest_trading: fund = initial_fund,
bank = 0, not in a position, no purchase price, no last sell date. -/
def initState (initial_fund : ℚ) : BTState :=
  { fund := initial_fund, bank := 0, in_position := false,
    purchase_price := none, last_sell_date := none }

/-- backtest_trading (backtesting.py, lines 228-349): runs the day-by-day
simulation over the indicator-augmented merged frame and returns the trade
records, the final fund and the final bank. -/
def backtest_trading (df : List Row) (initial_fund : ℚ) : List TradeRecord × ℚ × ℚ :=
  let res := btGo df df.enum (initState initial_fund)
  (res.2, res.1.fund, res.1.bank)

/-- The n-th trading day counted from the Monday epoch, skipping weekends:
weeks of five consecutive weekdays. -/
def bdayNum (n : ℕ) : ℤ := 7 * ((n : ℤ) / 5) + (n : ℤ) % 5

/-- A concrete 33-row merged series: thirty warm-up rows of constant prices
on consecutive business days (days 0 .. 39 on the weekly calendar), a dip
to 74 on day 42 (Monday), a spike to 80 on day 43 (Tuesday), and a dip to
70 on day 45 (Thursday) - day 44 (Wednesday) is missing from the data, as
happens for a mid-week market holiday or a date dropped by the inner
join. -/
def df3 : List MergedRow :=
  ((List.range 30).map (fun n => { date := bdayNum n, Open_tecl := 100, OPEN_vix := 20 }))
  ++ [ { date := 42, Open_tecl := 74, OPEN_vix := 20 },
       { date := 43, Open_tecl := 80, OPEN_vix := 20 },
       { date := 45, Open_tecl := 70, OPEN_vix := 20 } ]

/-- A concrete 31-row merged series of constant prices, enough for exactly
one indicator-bearing row (row 31, position 30). -/
def dfW : List MergedRow :=
  (List.range 31).map (fun n => { date := bdayNum n, Open_tecl := 100, OPEN_vix := 20 })

/-- The indicator-bearing row of dfW: position 30, with SMA 100 (mean of
thirty copies of 100) and WMA 20 (weighted mean of thirty copies of 20). -/
def rowW : Row :=
  { date := 42, Open_tecl := 100, OPEN_vix := 20, SMA_tecl := some 100, WMA_vix := some 20 }

/-- The binary exponent of a rational q with 1 <= q: the greatest k with
2 ^ k <= q, found by halving with explicit fuel (structural recursion). -/
def findExp2 (q : ℚ) : ℕ → ℕ
  | 0 => 0
  | fuel + 1 => if q < 2 then 0 else findExp2 (q / 2) fuel + 1

/-- Round a rational in the interval from 1 to 2 ^ 62 to the nearest
IEEE-754 binary64 value, ties to even: the significand is scaled to the
interval from 2 ^ 52 to 2 ^ 53 and rounded to an integer. This models the
value Python stores for a float literal and the result of a float
multiplication on the positive normal range. -/
def roundF64 (q : ℚ) : ℚ :=
  let k := findExp2 q 62
  let scale := q * 2 ^ (52 - k)
  let n := ⌊scale⌋
  let frac := scale - n
  let n2 := if frac < 1 / 2 then n else if 1 / 2 < frac then n + 1
            else if n % 2 = 0 then n else n + 1
  (n2 : ℚ) / 2 ^ (52 - k)

/-- The sell comparison of backtesting.py line 270 under Python's IEEE-754
binary64 arithmetic: both operands are the doubles nearest the decimal
literals, the product purchase_price * 1.058 is computed as a double
multiplication (rounded once), and the comparison is exact on doubles. -/
def sellComparisonF64 (purchase_price priceA : ℚ) : Bool :=
  decide (roundF64 (roundF64 purchase_price * roundF64 (1.058 : ℚ)) ≤ roundF64 priceA)

/-- True exactly on the error constructor of Except. -/
def isErr {α : Type} : Except String α → Bool
  | Except.error _ => true
  | Except.ok _ => false

/-- Python str.strip on the characters of a string: leading and trailing
whitespace removed. -/
def stripWs (s : String) : String :=
  String.mk (((s.toList.dropWhile Char.isWhitespace).reverse.dropWhile
    Char.isWhitespace).reverse)

/-- The column handling of load_data (backtesting.py, lines 24-39): strip
whitespace from the headers, require the date column to be present (raising
a ValueError naming the missing column otherwise), and rename it to Date.
Only the header row is modelled; cell values play no role in the claims
about load_data. -/
def load_data (file_columns : List String) (date_col : String) : Except String (List String) :=
  if date_col ∈ file_columns.map stripWs then
    Except.ok ((file_columns.map stripWs).map (fun c => if c = date_col then "Date" else c))
  else
    Except.error ("Expected column " ++ date_col ++ " not found in file")

/-- The elapsed years of annualized_return: (end_date - start_date).days
divided by 365.25, with dates modelled as integer day numbers. -/
def yearsOf (startD endD : ℤ) : ℚ := ((endD - startD : ℤ) : ℚ) / (365.25 : ℚ)

/-- annualized_return (arr.py lines 1-23 and backtesting.py lines 88-110)
under Python evaluation semantics: a ZeroDivisionError is raised when
starting_fund is zero (final_fund / starting_fund), when the dates
coincide (1 / years), or when the capital ratio is zero and the exponent
is negative (0.0 ** negative); otherwise the value
((final_fund / starting_fund) ** (1 / years) - 1) * 100 is returned.
The power is read in the complex plane with the principal branch, which is
where Python lands for a negative ratio and which agrees with float power
on a nonnegative ratio; the result is therefore not an executable rational
and the definition is noncomputable, while the guard structure stays
decidable. -/
noncomputable def annualized_return (startD endD : ℤ) (starting_fund final_fund : ℚ) :
    Except String ℂ :=
  if starting_fund = 0 then Except.error "ZeroDivisionError"
  else if yearsOf startD endD = 0 then Except.error "ZeroDivisionError"
  else if final_fund / starting_fund = 0 ∧ yearsOf startD endD < 0 then
    Except.error "ZeroDivisionError"
  else Except.ok
    ((((final_fund / starting_fund : ℚ) : ℂ) ^ (((1 / yearsOf startD endD : ℚ) : ℂ)) - 1)
      * 100)

/-- Modelled from the spec, section 4.5: the value
((end_capital / start_capital) ** (1 / years) - 1) * 100 with
years = (end_date - start_date).days / 365.25, read in the complex plane
like the code's power expression. -/
noncomputable def arrValue (startD endD : ℤ) (start_capital end_capital : ℚ) : ℂ :=
  (((end_capital / start_capital : ℚ) : ℂ) ^ (((1 / yearsOf startD endD : ℚ)) : ℂ) - 1) * 100

/-- True on the two buy actions, false on sell. -/
def isBuy : TradeAction → Bool
  | TradeAction.sell => false
  | _ => true

/-- The action sequence strictly alternates between buys and sells, the
expected next kind being a buy exactly when the Boolean argument (the
in_position flag at the start of the sequence) is false. -/
def alternatesFrom : Bool → List TradeAction → Prop
  | _, [] => True
  | b, a :: rest => isBuy a = !b ∧ alternatesFrom (!b) rest

/-- The number of buy actions in a list. -/
def buyCount (l : List TradeAction) : ℕ := (l.filter isBuy).length

/-- The number of sell actions in a list. -/
def sellCount (l : List TradeAction) : ℕ := (l.filter (fun a => !(isBuy a))).length

/-- Along a trade-record sequence, tracking the date of the most recent
sell (starting from the given marker): no buy record is dated exactly one
business day after that marker. -/
def noBuyOnCooldownDay : Option ℤ → List TradeRecord → Prop
  | _, [] => True
  | ls, t :: rest =>
      (isBuy t.action = true → isCooldown ls t.date = false)
      ∧ noBuyOnCooldownDay
          (if t.action = TradeAction.sell then some t.date else ls) rest

/-- The loop invariant of the fund ledger: the fund never falls below the
initial fund, the bank is nonnegative, and any recorded purchase price is
positive. -/
def stateOK (initial_fund : ℚ) (s : BTState) : Prop :=
  initial_fund ≤ s.fund ∧ 0 ≤ s.bank ∧ ∀ pp, s.purchase_price = some pp → 0 < pp

/-- A concrete indicator-bearing row with priceA 80, used to exercise the
sell branch. -/
def rSell : Row :=
  { date := 43, Open_tecl := 80, OPEN_vix := 20, SMA_tecl := some 100, WMA_vix := some 20 }

/-- A concrete LONG state with purchase price 74 and fund 10000. -/
def sLong : BTState :=
  { fund := 10000, bank := 0, in_position := true, purchase_price := some 74,
    last_sell_date := none }

/-- A concrete indicator-bearing row with priceA exactly 105.8. -/
def r1058 : Row :=
  { date := 10, Open_tecl := (105.8 : ℚ), OPEN_vix := 20, SMA_tecl := some 100,
    WMA_vix := some 20 }

/-- A concrete indicator-bearing row with priceA exactly 105.79. -/
def r10579 : Row :=
  { date := 10, Open_tecl := (105.79 : ℚ), OPEN_vix := 20, SMA_tecl := some 100,
    WMA_vix := some 20 }

/-- A concrete LONG state with purchase price 100. -/
def sLong100 : BTState :=
  { fund := 10000, bank := 0, in_position := true, purchase_price := some 100,
    last_sell_date := none }

/-- A concrete indicator-bearing row with priceA 74 against an SMA of 100,
satisfying the immediate-buy rule. -/
def rBuy74 : Row :=
  { date := 42, Open_tecl := 74, OPEN_vix := 20, SMA_tecl := some 100, WMA_vix := some 20 }

section Proofs

set_option maxRecDepth 8000

attribute [local semireducible] Rat.add Rat.mul Rat.sub Rat.inv Rat.ofScientific

/-- C1: on every SELL executed by backtest_trading (state LONG and priceA
at least purchase_price * 1.058), the new fund equals the old fund times
the full ratio priceA / purchase_price (not reduced by the skim), the bank
increases by exactly 0.2 * old_fund * (priceA / purchase_price - 1), and
the combined total fund + bank grows by 120 percent of the realized profit
of the trade. -/
theorem sell_accounting
    (df : List Row) (i : ℕ) (r : Row) (s : BTState) (pp sma wma : ℚ)
    (hpos : s.in_position = true) (hpp : s.purchase_price = some pp)
    (hsma : r.SMA_tecl = some sma) (hwma : r.WMA_vix = some wma)
    (ht : pp * (1.058 : ℚ) ≤ r.Open_tecl) :
    (stepRow df i r s).1.fund = s.fund * (r.Open_tecl / pp)
    ∧ (stepRow df i r s).1.bank
        = s.bank + (0.2 : ℚ) * (s.fund * (r.Open_tecl / pp - 1))
    ∧ ((stepRow df i r s).1.fund + (stepRow df i r s).1.bank)
        - (s.fund + s.bank)
        = (1.2 : ℚ) * (s.fund * (r.Open_tecl / pp - 1))
    ∧ (stepRow df i r s).2 = some (sellRec s r pp) := by
  have hstep : stepRow df i r s = (sellStep s r pp, some (sellRec s r pp)) := by
    simp only [stepRow, hsma, hwma, hpos, hpp, if_true]
    rw [if_pos ht]
  rw [hstep]
  refine ⟨rfl, ?_, ?_, rfl⟩
  · simp only [sellStep]
    ring
  · simp only [sellStep]
    ring

/-- Witness for C1 at a concrete sell: purchase 74, price 80, fund 10000. -/
theorem sell_accounting_witness :
    (stepRow [] 0 rSell sLong).1.fund = 10000 * ((80 : ℚ) / 74)
    ∧ (stepRow [] 0 rSell sLong).1.bank
        = 0 + (0.2 : ℚ) * (10000 * ((80 : ℚ) / 74 - 1))
    ∧ ((stepRow [] 0 rSell sLong).1.fund + (stepRow [] 0 rSell sLong).1.bank)
        - ((10000 : ℚ) + 0)
        = (1.2 : ℚ) * (10000 * ((80 : ℚ) / 74 - 1))
    ∧ (stepRow [] 0 rSell sLong).2 = some (sellRec sLong rSell 74) :=
  sell_accounting [] 0 rSell sLong 74 100 20 rfl rfl rfl rfl (by decide)

/-- C7 counterexample: under the IEEE-754 binary64 arithmetic that the
Python code actually performs, a row with priceA = 105.8 and
purchase_price = 100 does not satisfy the sell comparison of line 270,
because 100 * 1.058 rounds to a double strictly above the double nearest
105.8; the claimed SELL at exactly 105.8 does not happen. -/
theorem sell_threshold_float_cex : sellComparisonF64 100 (105.8 : ℚ) = false := by
  decide

/-- C7 amended: the comparison of line 270 is inclusive (greater or
equal): in exact arithmetic a LONG state with purchase price 100 sells at
priceA = 105.8 and does not sell at 105.79; under the binary64 arithmetic
the code performs, however, 100 * 1.058 rounds to
1861253283499213 / 17592186044416 (about 105.80000000000001), one ulp
above the double nearest 105.8, so neither 105.8 nor 105.79 triggers and
the rounded product itself is the least triggering price. -/
theorem sell_threshold_inclusive :
    (stepRow [] 0 r1058 sLong100).2 = some (sellRec sLong100 r1058 100)
    ∧ (stepRow [] 0 r10579 sLong100).2 = none
    ∧ (stepRow [] 0 r10579 sLong100).1 = sLong100
    ∧ roundF64 (100 * roundF64 (1.058 : ℚ))
        = (1861253283499213 : ℚ) / 17592186044416
    ∧ roundF64 (105.8 : ℚ) < (1861253283499213 : ℚ) / 17592186044416
    ∧ sellComparisonF64 100 (105.79 : ℚ) = false
    ∧ sellComparisonF64 100 ((1861253283499213 : ℚ) / 17592186044416) = true := by
  decide

/-- C8 counterexample: a file whose stripped header contains the date
column but no open-price column (neither Open nor OPEN) loads without any
error, contradicting the claimed fail-fast on a missing open-price
column. -/
theorem load_data_missing_open_cex :
    isErr (load_data ["Date", "High", "Low", "Close"] "Date") = false
    ∧ ¬ ("Open" ∈ ["Date", "High", "Low", "Close"])
    ∧ ¬ ("OPEN" ∈ ["Date", "High", "Low", "Close"]) := by
  decide

/-- C8 amended: load_data fails fast with a missing-column error exactly
when the requested date column is absent from the whitespace-stripped
header; the open-price column is not validated at load time at all. -/
theorem load_data_error_iff (cols : List String) (date_col : String) :
    isErr (load_data cols date_col) = true ↔ date_col ∉ cols.map stripWs := by
  unfold load_data
  split_ifs with h
  · simp [isErr, h]
  · simp [isErr, h]

/-- C9 counterexample: with the end date 365 days before the start date
(years < 0) and positive capitals, annualized_return does not fail: the
guards pass and a value is returned, contradicting the claimed failure
for years <= 0. -/
theorem annualized_return_negative_years_cex :
    yearsOf 366 1 < 0 ∧ isErr (annualized_return 366 1 10000 20000) = false := by
  constructor
  · decide
  · rfl

/-- C9 amended: annualized_return fails (a ZeroDivisionError) exactly when
start_capital = 0, or the dates coincide (years = 0), or end_capital = 0
with the end date before the start date (0.0 to a negative power); in
particular it does not fail for years < 0 with positive capitals, where it
silently returns a number. For years > 0 and a nonzero start_capital it
returns ((end_capital / start_capital) ** (1 / years) - 1) * 100 with
years = (end_date - start_date).days / 365.25. -/
theorem annualized_return_spec (startD endD : ℤ) (s e : ℚ) :
    (isErr (annualized_return startD endD s e) = true ↔
      (s = 0 ∨ endD = startD ∨ (e = 0 ∧ endD < startD)))
    ∧ (startD < endD → s ≠ 0 →
        annualized_return startD endD s e = Except.ok (arrValue startD endD s e)) := by
  have h365 : (0 : ℚ) < (365.25 : ℚ) := by norm_num
  have hz : yearsOf startD endD = 0 ↔ endD = startD := by
    unfold yearsOf
    rw [div_eq_zero_iff]
    constructor
    · rintro (h | h)
      · have h' : ((endD - startD : ℤ) : ℚ) = 0 := h
        have : endD - startD = 0 := by exact_mod_cast h'
        omega
      · exact absurd h (by norm_num)
    · intro h
      left
      simp [h]
  have hneg : yearsOf startD endD < 0 ↔ endD < startD := by
    unfold yearsOf
    constructor
    · intro h
      by_contra hcon
      push_neg at hcon
      have : (0 : ℚ) ≤ ((endD - startD : ℤ) : ℚ) := by
        have : (0 : ℤ) ≤ endD - startD := by omega
        exact_mod_cast this
      have := div_nonneg this (le_of_lt h365)
      linarith
    · intro h
      apply div_neg_of_neg_of_pos _ h365
      have : endD - startD < 0 := by omega
      exact_mod_cast this
  constructor
  · unfold annualized_return
    split_ifs with h1 h2 h3
    · simp [isErr, h1]
    · simp [isErr, hz.mp h2]
    · have he : e = 0 := by
        rcases div_eq_zero_iff.mp h3.1 with h | h
        · exact h
        · exact absurd h h1
      simp [isErr, he, hneg.mp h3.2]
    · simp only [isErr]
      constructor
      · intro hh
        exact absurd hh (by simp)
      · rintro (h | h | ⟨he, hlt⟩)
        · exact absurd h h1
        · exact absurd (hz.mpr h) h2
        · exact absurd ⟨by simp [he], hneg.mpr hlt⟩ h3
  · intro hlt hs
    have hy : 0 < yearsOf startD endD := by
      apply div_pos _ h365
      have : 0 < endD - startD := by omega
      exact_mod_cast this
    unfold annualized_return
    rw [if_neg hs, if_neg (by linarith), if_neg (by rintro ⟨-, hc⟩; linarith)]
    rfl

/-- Witness for C9 at a concrete input: one year, capital doubled. -/
theorem annualized_return_spec_witness :
    annualized_return 0 365 10000 20000 = Except.ok (arrValue 0 365 10000 20000) :=
  (annualized_return_spec 0 365 10000 20000).2 (by decide) (by decide)

/-- Case analysis of one loop iteration: either nothing is appended and
the position flag and sell marker are unchanged; or a buy record is
appended, only from a flat state not on a cooldown day, switching the flag
on and keeping the marker; or a sell record is appended, only from a long
state, switching the flag off and moving the marker to the record's
date. -/
theorem stepRow_inv (df : List Row) (i : ℕ) (r : Row) (s : BTState) :
    ((stepRow df i r s).2 = none
      ∧ (stepRow df i r s).1.in_position = s.in_position
      ∧ (stepRow df i r s).1.last_sell_date = s.last_sell_date)
    ∨ (∃ tr, (stepRow df i r s).2 = some tr ∧ isBuy tr.action = true
        ∧ s.in_position = false ∧ (stepRow df i r s).1.in_position = true
        ∧ isCooldown s.last_sell_date tr.date = false
        ∧ (stepRow df i r s).1.last_sell_date = s.last_sell_date)
    ∨ (∃ tr, (stepRow df i r s).2 = some tr ∧ tr.action = TradeAction.sell
        ∧ s.in_position = true ∧ (stepRow df i r s).1.in_position = false
        ∧ (stepRow df i r s).1.last_sell_date = some tr.date) := by
  rcases hsma : r.SMA_tecl with _ | sma
  · left
    refine ⟨?_, ?_, ?_⟩ <;> simp [stepRow, hsma]
  rcases hwma : r.WMA_vix with _ | wma
  · left
    refine ⟨?_, ?_, ?_⟩ <;> simp [stepRow, hsma, hwma]
  cases hpos : s.in_position with
  | true =>
    rcases hpp : s.purchase_price with _ | pp
    · left
      refine ⟨?_, ?_, ?_⟩ <;> simp [stepRow, hsma, hwma, hpos, hpp]
    by_cases hsell : pp * (1.058 : ℚ) ≤ r.Open_tecl
    · right; right
      refine ⟨sellRec s r pp, ?_, rfl, rfl, ?_, ?_⟩ <;>
        simp [stepRow, hsma, hwma, hpos, hpp, hsell, sellStep, sellRec]
    · left
      refine ⟨?_, ?_, ?_⟩ <;> simp [stepRow, hsma, hwma, hpos, hpp, hsell]
  | false =>
    by_cases hcd : isCooldown s.last_sell_date r.date = true
    · left
      refine ⟨?_, ?_, ?_⟩ <;> simp [stepRow, hsma, hwma, hpos, hcd]
    have hcd' : isCooldown s.last_sell_date r.date = false := by
      simpa using hcd
    by_cases hb1 : r.Open_tecl < (0.75 : ℚ) * sma
    · right; left
      refine ⟨buyRecImmediate s r, ?_, rfl, rfl, ?_, ?_, ?_⟩ <;>
        simp [stepRow, hsma, hwma, hpos, hcd', hb1, buyStep, buyRecImmediate]
    by_cases hb2 : r.Open_tecl < (1.25 : ℚ) * sma ∧ vixSignal df i = true
    · right; left
      refine ⟨buyRecConditional s r, ?_, rfl, rfl, ?_, ?_, ?_⟩ <;>
        simp [stepRow, hsma, hwma, hpos, hcd', hb1, hb2, buyStep, buyRecConditional]
    · left
      refine ⟨?_, ?_, ?_⟩ <;> simp [stepRow, hsma, hwma, hpos, hcd', hb1, hb2]

/-- The records emitted by the loop strictly alternate, the first expected
kind being determined by the in_position flag of the starting state. -/
theorem btGo_alternates (df : List Row) :
    ∀ (l : List (ℕ × Row)) (s : BTState),
      alternatesFrom s.in_position ((btGo df l s).2.map TradeRecord.action) := by
  intro l
  induction l with
  | nil =>
    intro s
    simp [btGo, alternatesFrom]
  | cons p rest ih =>
    intro s
    rcases stepRow_inv df p.1 p.2 s with
      ⟨h2, hflag, -⟩ | ⟨tr, h2, hbuy, hold, hnew, -, -⟩ | ⟨tr, h2, hact, hold, hnew, -⟩
    · have := ih (stepRow df p.1 p.2 s).1
      rw [hflag] at this
      simpa [btGo, h2] using this
    · have := ih (stepRow df p.1 p.2 s).1
      rw [hnew] at this
      rw [hold]
      simp only [btGo, h2, Option.toList, List.map, List.cons_append, List.nil_append]
      exact ⟨by simpa using hbuy, by simpa using this⟩
    · have := ih (stepRow df p.1 p.2 s).1
      rw [hnew] at this
      rw [hold]
      simp only [btGo, h2, Option.toList, List.map, List.cons_append, List.nil_append]
      exact ⟨by simp [hact, isBuy], by simpa using this⟩

/-- In any prefix of an alternating action sequence the buys outnumber the
sells by at most one (exactly: by at most one when expecting a buy, by
none when expecting a sell). -/
theorem alternatesFrom_count (l : List TradeAction) :
    ∀ (b : Bool) (n : ℕ), alternatesFrom b l →
      buyCount (l.take n) ≤ sellCount (l.take n) + (cond b 0 1) := by
  induction l with
  | nil =>
    intro b n _
    simp [buyCount, sellCount]
  | cons a t ih =>
    intro b n h
    rw [alternatesFrom] at h
    obtain ⟨ha, ht⟩ := h
    cases n with
    | zero => simp [buyCount, sellCount]
    | succ m =>
      simp only [List.take_succ_cons]
      cases b with
      | false =>
        have hbuy : isBuy a = true := by simpa using ha
        have hih := ih true m ht
        simp [buyCount, sellCount, List.filter_cons, hbuy] at hih ⊢
        omega
      | true =>
        have hsell : isBuy a = false := by simpa using ha
        have hih := ih false m ht
        simp [buyCount, sellCount, List.filter_cons, hsell] at hih ⊢
        omega

/-- C2: for every input series, the trade records produced by
backtest_trading describe at most one open position at any time: buys and
sells strictly alternate starting with a buy, and every prefix of the
sequence contains at most one more buy than sells. -/
theorem at_most_one_open_position (df : List Row) (initial_fund : ℚ) :
    alternatesFrom false
      (((backtest_trading df initial_fund).1).map TradeRecord.action)
    ∧ ∀ n,
      buyCount ((((backtest_trading df initial_fund).1).map TradeRecord.action).take n)
        ≤ sellCount ((((backtest_trading df initial_fund).1).map TradeRecord.action).take n)
          + 1 := by
  have halt := btGo_alternates df df.enum (initState initial_fund)
  constructor
  · exact halt
  · intro n
    have := alternatesFrom_count
      (((backtest_trading df initial_fund).1).map TradeRecord.action) false n halt
    simpa using this

/-- C3 counterexample: on the concrete series df3 the backtest sells on
day 43 (a Tuesday, at row position 31) and then buys on day 45 (the
Thursday of the same week, at row position 32), the very next row
processed: the cooldown guard compares against day 44 only
(nextBusinessDay 43 = 44), and row 32's date is 45 because day 44 is
missing from the data, so a buy is recorded on the trading day
immediately following the sell. -/
theorem buy_on_next_row_after_sell_cex :
    (((backtest_trading (calculate_indicators df3) 10000).1).map
        (fun t => (t.date, t.action))
      = [((42 : ℤ), TradeAction.buyImmediate), (43, TradeAction.sell),
         (45, TradeAction.buyImmediate)])
    ∧ ((calculate_indicators df3).map Row.date).drop 30 = [42, 43, 45]
    ∧ (calculate_indicators df3).length = 33
    ∧ nextBusinessDay 43 = 44 := by
  decide

/-- Along the loop, starting from any state, no emitted buy record is
dated one business day after the sell marker current when it is
emitted. -/
theorem btGo_noBuyCooldown (df : List Row) :
    ∀ (l : List (ℕ × Row)) (s : BTState),
      noBuyOnCooldownDay s.last_sell_date ((btGo df l s).2) := by
  intro l
  induction l with
  | nil =>
    intro s
    simp [btGo, noBuyOnCooldownDay]
  | cons p rest ih =>
    intro s
    rcases stepRow_inv df p.1 p.2 s with
      ⟨h2, -, hls⟩ | ⟨tr, h2, hbuy, -, -, hcd, hls⟩ | ⟨tr, h2, hact, -, -, hls⟩
    · have := ih (stepRow df p.1 p.2 s).1
      rw [hls] at this
      simpa [btGo, h2] using this
    · have := ih (stepRow df p.1 p.2 s).1
      rw [hls] at this
      simp only [btGo, h2, Option.toList, List.cons_append, List.nil_append]
      rw [noBuyOnCooldownDay]
      refine ⟨fun _ => hcd, ?_⟩
      have hns : tr.action ≠ TradeAction.sell := by
        intro hc
        rw [hc] at hbuy
        simp [isBuy] at hbuy
      rw [if_neg hns]
      exact this
    · have := ih (stepRow df p.1 p.2 s).1
      rw [hls] at this
      simp only [btGo, h2, Option.toList, List.cons_append, List.nil_append]
      rw [noBuyOnCooldownDay]
      refine ⟨fun hb => ?_, ?_⟩
      · rw [hact] at hb
        simp [isBuy] at hb
      · rw [if_pos hact]
        exact this

/-- C3 amended: in the record sequence of backtest_trading no buy is dated
exactly one business day (pandas BDay) after the most recent preceding
sell; a buy on the very next processed row is possible whenever that row's
date is not exactly one business day after the sell date (for instance
across a mid-week market holiday), as the counterexample shows. -/
theorem no_buy_one_business_day_after_sell (df : List Row) (initial_fund : ℚ) :
    noBuyOnCooldownDay none ((backtest_trading df initial_fund).1) :=
  btGo_noBuyCooldown df df.enum (initState initial_fund)

/-- C4: from a flat state with indicators present and the cooldown not
applying, the buy rules are evaluated in fixed priority order, taking the
first match: priceA below 0.75 * sma buys immediately at priceA, recording
the purchase price and switching to LONG; otherwise priceA below
1.25 * sma together with the row exactly 4 positions earlier having
OPEN_vix above 1.04 times its own (lag-shifted) WMA_vix buys conditionally
at priceA; otherwise the state is unchanged and no record is emitted. -/
theorem buy_rule_priority
    (df : List Row) (i : ℕ) (r : Row) (s : BTState) (sma wma : ℚ)
    (hflat : s.in_position = false)
    (hsma : r.SMA_tecl = some sma) (hwma : r.WMA_vix = some wma)
    (hcd : isCooldown s.last_sell_date r.date = false) :
    (r.Open_tecl < (0.75 : ℚ) * sma →
      stepRow df i r s = (buyStep s r, some (buyRecImmediate s r)))
    ∧ (¬ r.Open_tecl < (0.75 : ℚ) * sma → r.Open_tecl < (1.25 : ℚ) * sma →
        vixSignal df i = true →
        stepRow df i r s = (buyStep s r, some (buyRecConditional s r)))
    ∧ (¬ r.Open_tecl < (0.75 : ℚ) * sma →
        ¬ (r.Open_tecl < (1.25 : ℚ) * sma ∧ vixSignal df i = true) →
        stepRow df i r s = (s, none))
    ∧ (vixSignal df i = true ↔
        ∃ prev w, 4 ≤ i ∧ df.get? (i - 4) = some prev ∧ prev.WMA_vix = some w
          ∧ (1.04 : ℚ) * w < prev.OPEN_vix)
    ∧ (buyStep s r).purchase_price = some r.Open_tecl
    ∧ (buyStep s r).in_position = true := by
  refine ⟨fun h1 => ?_, fun h1 h2 h3 => ?_, fun h1 h2 => ?_, ?_, rfl, rfl⟩
  · simp [stepRow, hsma, hwma, hflat, hcd, h1]
  · simp [stepRow, hsma, hwma, hflat, hcd, h1, h2, h3]
  · simp [stepRow, hsma, hwma, hflat, hcd, h1, h2]
  · unfold vixSignal
    by_cases h4 : 4 ≤ i
    · rw [if_pos h4]
      rcases hget : df.get? (i - 4) with _ | prev
      · simp [hget]
      · rcases hwv : prev.WMA_vix with _ | w
        · simp [hget, hwv]
        · simp [hget, hwv, h4]
    · rw [if_neg h4]
      simp [h4]

/-- Witness for C4 at a concrete immediate buy: priceA 74 below
0.75 * 100. -/
theorem buy_rule_priority_witness :
    stepRow [] 0 rBuy74 (initState 10000)
      = (buyStep (initState 10000) rBuy74,
         some (buyRecImmediate (initState 10000) rBuy74)) :=
  (buy_rule_priority [] 0 rBuy74 (initState 10000) 100 20 rfl rfl rfl rfl).1 (by decide)

/-- The second component of any member of an enumeration is a member of
the underlying list. -/
theorem mem_enumFrom_snd {α : Type} :
    ∀ (l : List α) (n : ℕ) (p : ℕ × α), p ∈ l.enumFrom n → p.2 ∈ l := by
  intro l
  induction l with
  | nil =>
    intro n p h
    cases h
  | cons a t ih =>
    intro n p h
    rw [List.enumFrom] at h
    rcases List.mem_cons.mp h with h | h
    · rw [h]
      exact List.mem_cons_self a t
    · exact List.mem_cons_of_mem a (ih (n + 1) p h)

/-- One loop iteration preserves the ledger invariant and never decreases
fund or bank, provided the row's price is positive. -/
theorem stepRow_ledger (df : List Row) (i : ℕ) (r : Row) (s : BTState) (initf : ℚ)
    (h0 : 0 < initf) (hok : stateOK initf s) (hr : 0 < r.Open_tecl) :
    stateOK initf (stepRow df i r s).1
    ∧ s.fund ≤ (stepRow df i r s).1.fund ∧ s.bank ≤ (stepRow df i r s).1.bank := by
  rcases hsma : r.SMA_tecl with _ | sma
  · have hs : (stepRow df i r s).1 = s := by simp [stepRow, hsma]
    rw [hs]
    exact ⟨hok, le_refl _, le_refl _⟩
  rcases hwma : r.WMA_vix with _ | wma
  · have hs : (stepRow df i r s).1 = s := by simp [stepRow, hsma, hwma]
    rw [hs]
    exact ⟨hok, le_refl _, le_refl _⟩
  cases hpos : s.in_position with
  | true =>
    rcases hppe : s.purchase_price with _ | pp
    · have hs : (stepRow df i r s).1 = s := by simp [stepRow, hsma, hwma, hpos, hppe]
      rw [hs]
      exact ⟨hok, le_refl _, le_refl _⟩
    by_cases hsell : pp * (1.058 : ℚ) ≤ r.Open_tecl
    · have hs : (stepRow df i r s).1 = sellStep s r pp := by
        simp [stepRow, hsma, hwma, hpos, hppe, hsell]
      rw [hs]
      have hpp : 0 < pp := hok.2.2 pp hppe
      have hfund : initf ≤ s.fund := hok.1
      have hfund0 : 0 < s.fund := lt_of_lt_of_le h0 hfund
      have hr1 : (1 : ℚ) ≤ r.Open_tecl / pp := by
        rw [le_div_iff₀ hpp]
        nlinarith
      have hgrow : s.fund ≤ s.fund * (r.Open_tecl / pp) := by
        nlinarith
      have hbank := hok.2.1
      refine ⟨⟨?_, ?_, ?_⟩, ?_, ?_⟩
      · simp only [sellStep]
        linarith
      · simp only [sellStep]
        linarith
      · intro pp' hc
        simp [sellStep] at hc
      · simp only [sellStep]
        exact hgrow
      · simp only [sellStep]
        linarith
    · have hs : (stepRow df i r s).1 = s := by
        simp [stepRow, hsma, hwma, hpos, hppe, hsell]
      rw [hs]
      exact ⟨hok, le_refl _, le_refl _⟩
  | false =>
    by_cases hcd : isCooldown s.last_sell_date r.date = true
    · have hs : (stepRow df i r s).1 = s := by simp [stepRow, hsma, hwma, hpos, hcd]
      rw [hs]
      exact ⟨hok, le_refl _, le_refl _⟩
    have hcd' : isCooldown s.last_sell_date r.date = false := by simpa using hcd
    have hbuyok : stateOK initf (buyStep s r)
        ∧ s.fund ≤ (buyStep s r).fund ∧ s.bank ≤ (buyStep s r).bank := by
      refine ⟨⟨hok.1, hok.2.1, ?_⟩, le_refl _, le_refl _⟩
      intro pp' hc
      have hc' : r.Open_tecl = pp' := by simpa [buyStep] using hc
      rw [← hc']
      exact hr
    by_cases hb1 : r.Open_tecl < (0.75 : ℚ) * sma
    · have hs : (stepRow df i r s).1 = buyStep s r := by
        simp [stepRow, hsma, hwma, hpos, hcd', hb1]
      rw [hs]
      exact hbuyok
    by_cases hb2 : r.Open_tecl < (1.25 : ℚ) * sma ∧ vixSignal df i = true
    · have hs : (stepRow df i r s).1 = buyStep s r := by
        simp [stepRow, hsma, hwma, hpos, hcd', hb1, hb2]
      rw [hs]
      exact hbuyok
    · have hs : (stepRow df i r s).1 = s := by
        simp [stepRow, hsma, hwma, hpos, hcd', hb1, hb2]
      rw [hs]
      exact ⟨hok, le_refl _, le_refl _⟩

/-- The loop preserves the ledger invariant and never decreases fund or
bank over any run, provided all prices in the rows processed are
positive. -/
theorem btGo_ledger (df : List Row) (initf : ℚ) (h0 : 0 < initf) :
    ∀ (l : List (ℕ × Row)) (s : BTState),
      (∀ p ∈ l, 0 < (Prod.snd p).Open_tecl) → stateOK initf s →
      stateOK initf (btGo df l s).1
      ∧ s.fund ≤ (btGo df l s).1.fund ∧ s.bank ≤ (btGo df l s).1.bank := by
  intro l
  induction l with
  | nil =>
    intro s _ hok
    simp only [btGo]
    exact ⟨hok, le_refl _, le_refl _⟩
  | cons p rest ih =>
    intro s hl hok
    have hp : 0 < p.2.Open_tecl := hl p (List.mem_cons_self p rest)
    have hstep := stepRow_ledger df p.1 p.2 s initf h0 hok hp
    have hrest := ih (stepRow df p.1 p.2 s).1
      (fun q hq => hl q (List.mem_cons_of_mem p hq)) hstep.1
    simp only [btGo]
    exact ⟨hrest.1, le_trans hstep.2.1 hrest.2.1, le_trans hstep.2.2 hrest.2.2⟩

/-- Splitting the processed rows splits the loop: the final state of a run
over a concatenation is the final state of the second part started from
the final state of the first. -/
theorem btGo_append (df : List Row) (l₁ l₂ : List (ℕ × Row)) (s : BTState) :
    (btGo df (l₁ ++ l₂) s).1 = (btGo df l₂ (btGo df l₁ s).1).1 := by
  induction l₁ generalizing s with
  | nil => simp [btGo]
  | cons p t ih =>
    simp only [List.cons_append, btGo]
    exact ih (stepRow df p.1 p.2 s).1

/-- C10: with positive prices and a positive initial fund, the fund and
bank tracked by backtest_trading never decrease along the processed rows:
after any prefix the fund is at least the initial fund and the bank is
nonnegative, both are below their final values, and the final combined
total fund + bank is at least the initial fund - the ledger is blind to
unrealized losses of an open position. -/
theorem ledger_never_below_initial (df : List Row) (initial_fund : ℚ)
    (hp : ∀ r ∈ df, 0 < r.Open_tecl) (h0 : 0 < initial_fund) :
    (∀ l₁ l₂, df.enum = l₁ ++ l₂ →
      initial_fund ≤ (btGo df l₁ (initState initial_fund)).1.fund
      ∧ 0 ≤ (btGo df l₁ (initState initial_fund)).1.bank
      ∧ (btGo df l₁ (initState initial_fund)).1.fund
          ≤ (backtest_trading df initial_fund).2.1
      ∧ (btGo df l₁ (initState initial_fund)).1.bank
          ≤ (backtest_trading df initial_fund).2.2)
    ∧ initial_fund ≤ (backtest_trading df initial_fund).2.1
    ∧ 0 ≤ (backtest_trading df initial_fund).2.2
    ∧ initial_fund ≤ (backtest_trading df initial_fund).2.1
        + (backtest_trading df initial_fund).2.2 := by
  have hmem : ∀ p ∈ df.enum, 0 < (Prod.snd p).Open_tecl :=
    fun p hp' => hp p.2 (mem_enumFrom_snd df 0 p hp')
  have hinit : stateOK initial_fund (initState initial_fund) :=
    ⟨le_refl _, le_refl _, fun pp hc => by simp [initState] at hc⟩
  have hfull := btGo_ledger df initial_fund h0 df.enum (initState initial_fund) hmem hinit
  constructor
  · intro l₁ l₂ hsplit
    have h1mem : ∀ p ∈ l₁, 0 < (Prod.snd p).Open_tecl := fun p hp' =>
      hmem p (by rw [hsplit]; exact List.mem_append_left l₂ hp')
    have h2mem : ∀ p ∈ l₂, 0 < (Prod.snd p).Open_tecl := fun p hp' =>
      hmem p (by rw [hsplit]; exact List.mem_append_right l₁ hp')
    have hpre := btGo_ledger df initial_fund h0 l₁ (initState initial_fund) h1mem hinit
    have hrest := btGo_ledger df initial_fund h0 l₂
      (btGo df l₁ (initState initial_fund)).1 h2mem hpre.1
    have happ : (btGo df df.enum (initState initial_fund)).1
        = (btGo df l₂ (btGo df l₁ (initState initial_fund)).1).1 := by
      rw [hsplit, btGo_append]
    refine ⟨hpre.1.1, hpre.1.2.1, ?_, ?_⟩
    · show (btGo df l₁ (initState initial_fund)).1.fund
        ≤ (btGo df df.enum (initState initial_fund)).1.fund
      rw [happ]
      exact hrest.2.1
    · show (btGo df l₁ (initState initial_fund)).1.bank
        ≤ (btGo df df.enum (initState initial_fund)).1.bank
      rw [happ]
      exact hrest.2.2
  · refine ⟨hfull.1.1, hfull.1.2.1, ?_⟩
    show initial_fund ≤ (btGo df df.enum (initState initial_fund)).1.fund
      + (btGo df df.enum (initState initial_fund)).1.bank
    have h1 := hfull.1.1
    have h2 := hfull.1.2.1
    linarith

/-- Witness for C10 on the concrete series df3: the combined total after
the backtest is at least the initial 10000. -/
theorem ledger_never_below_initial_witness :
    (10000 : ℚ) ≤ (backtest_trading (calculate_indicators df3) 10000).2.1
      + (backtest_trading (calculate_indicators df3) 10000).2.2 :=
  (ledger_never_below_initial (calculate_indicators df3) 10000
    (by decide) (by decide)).2.2.2

/-- A rolling series keeps the length of the underlying series. -/
theorem rollingApply_length (f : List ℚ → ℚ) (w : ℕ) (xs : List ℚ) :
    (rollingApply f w xs).length = xs.length := by
  simp [rollingApply]

/-- Position j of a rolling series: defined once j + 1 reaches the window
width, by applying the kernel to the window of the w entries ending at
j. -/
theorem rollingApply_getElem? (f : List ℚ → ℚ) (w : ℕ) (xs : List ℚ) (j : ℕ) :
    (rollingApply f w xs)[j]? =
      if j < xs.length then
        some (if w ≤ j + 1 then some (f ((xs.drop (j + 1 - w)).take w)) else none)
      else none := by
  unfold rollingApply
  rw [List.getElem?_map]
  by_cases hj : j < xs.length
  · rw [List.getElem?_range hj, if_pos hj]
    rfl
  · have hr : (List.range xs.length)[j]? = none :=
      List.getElem?_eq_none (by simpa [List.length_range] using not_lt.mp hj)
    rw [hr, if_neg hj]
    rfl

/-- Position 0 of a shifted series is NaN. -/
theorem shift1_getElem?_zero (xs : List (Option ℚ)) (h : 0 < xs.length) :
    (shift1 xs)[0]? = some none := by
  unfold shift1
  rw [List.getElem?_take, if_pos h]
  simp

/-- Position i + 1 of a shifted series is position i of the original. -/
theorem shift1_getElem?_succ (xs : List (Option ℚ)) (i : ℕ) (h : i + 1 < xs.length) :
    (shift1 xs)[i + 1]? = xs[i]? := by
  unfold shift1
  rw [List.getElem?_take, if_pos h]
  exact List.getElem?_cons_succ

/-- Row i of the shifted rolling series: absent before position 30 (the
29-row rolling warm-up plus the one-position shift), and from position 30
on the kernel value of the 30 entries at positions i - 30 .. i - 1. -/
theorem shiftRolling_getElem? (f : List ℚ → ℚ) (xs : List ℚ) (i : ℕ)
    (hi : i < xs.length) :
    ((shift1 (rollingApply f 30 xs))[i]?).getD none
      = if 30 ≤ i then some (f ((xs.drop (i - 30)).take 30)) else none := by
  cases i with
  | zero =>
    rw [shift1_getElem?_zero _ (by rw [rollingApply_length]; omega)]
    simp
  | succ j =>
    rw [shift1_getElem?_succ _ j (by rw [rollingApply_length]; omega)]
    rw [rollingApply_getElem?]
    have hj : j < xs.length := by omega
    rw [if_pos hj]
    by_cases h30 : 30 ≤ j + 1
    · rw [if_pos h30]
      rfl
    · rw [if_neg h30]
      rfl

/-- Row i of calculate_indicators exists exactly for i below the frame
length, carries the merged columns of row i, and its indicator cells are
the shifted rolling series at position i. -/
theorem calculate_indicators_getElem? (df : List MergedRow) (i : ℕ) (r : Row)
    (h : (calculate_indicators df)[i]? = some r) :
    i < df.length
    ∧ r.SMA_tecl
        = ((shift1 (rollingApply meanList 30 (df.map MergedRow.Open_tecl)))[i]?).getD none
    ∧ r.WMA_vix
        = ((shift1 (rollingApply wmaFn 30 (df.map MergedRow.OPEN_vix)))[i]?).getD none := by
  simp only [calculate_indicators] at h
  rw [List.getElem?_map, List.getElem?_enum] at h
  rcases hdf : df[i]? with _ | a
  · rw [hdf] at h
    simp at h
  · rw [hdf] at h
    simp only [Option.map_some'] at h
    have hr := Option.some.inj h
    have hi : i < df.length := by
      by_contra hc
      rw [List.getElem?_eq_none (not_lt.mp hc)] at hdf
      exact absurd hdf (by simp)
    refine ⟨hi, ?_, ?_⟩
    · rw [← hr]
    · rw [← hr]

/-- The trailing window of 30 entries ending just before position i has
exactly 30 entries when the series is long enough. -/
theorem window_length (xs : List ℚ) (i : ℕ) (h30 : 30 ≤ i) (hlen : i < xs.length) :
    ((xs.drop (i - 30)).take 30).length = 30 := by
  simp only [List.length_take, List.length_drop]
  omega

/-- Entry k of the trailing window is entry i - 30 + k of the series. -/
theorem window_getD (xs : List ℚ) (i k : ℕ) (hk : k < 30) :
    ((xs.drop (i - 30)).take 30).getD k 0 = xs.getD (i - 30 + k) 0 := by
  rw [List.getD_eq_getElem?_getD, List.getD_eq_getElem?_getD, List.getElem?_take,
    if_pos hk, List.getElem?_drop]

/-- C5: after calculate_indicators with window 30, the SMA cell of every
row at position i below 30 (1-indexed rows up to N = 30, warm-up plus the
one-row shift) is absent, and at every position i from 30 on it is the
arithmetic mean of instrument A's open over the 30 rows i - 30 .. i - 1,
a window that never includes row i itself. -/
theorem sma_warmup_and_window (df : List MergedRow) (i : ℕ) (r : Row)
    (h : (calculate_indicators df).get? i = some r) :
    (i < 30 → r.SMA_tecl = none)
    ∧ (30 ≤ i →
        r.SMA_tecl
          = some ((((df.map MergedRow.Open_tecl).drop (i - 30)).take 30).sum / 30)
        ∧ (((df.map MergedRow.Open_tecl).drop (i - 30)).take 30).length = 30) := by
  rw [List.get?_eq_getElem?] at h
  obtain ⟨hi, hsma, -⟩ := calculate_indicators_getElem? df i r h
  have hlen : i < (df.map MergedRow.Open_tecl).length := by simpa using hi
  rw [shiftRolling_getElem? meanList _ i hlen] at hsma
  constructor
  · intro h30
    rw [hsma, if_neg (by omega)]
  · intro h30
    have hwl : (((df.map MergedRow.Open_tecl).drop (i - 30)).take 30).length = 30 :=
      window_length _ i h30 hlen
    refine ⟨?_, hwl⟩
    rw [hsma, if_pos h30]
    unfold meanList
    rw [hwl]
    norm_num

/-- Witness for C5 on the concrete 31-row series dfW at position 30. -/
theorem sma_warmup_and_window_witness :
    rowW.SMA_tecl
      = some ((((dfW.map MergedRow.Open_tecl).drop (30 - 30)).take 30).sum / 30)
    ∧ (((dfW.map MergedRow.Open_tecl).drop (30 - 30)).take 30).length = 30 :=
  (sma_warmup_and_window dfW 30 rowW (by decide)).2 (by decide)

/-- The dot product of two equally long rational lists as a sum over
positions. -/
theorem zipWith_mul_sum (xs : List ℚ) :
    ∀ ws : List ℚ, xs.length = ws.length →
      (List.zipWith (fun a b => a * b) xs ws).sum
        = ∑ k ∈ Finset.range ws.length, xs.getD k 0 * ws.getD k 0 := by
  induction xs with
  | nil =>
    intro ws h
    cases ws with
    | nil => simp
    | cons w wt => simp at h
  | cons x xt ih =>
    intro ws h
    cases ws with
    | nil => simp at h
    | cons w wt =>
      have h' : xt.length = wt.length := by simpa using h
      rw [List.zipWith_cons_cons, List.sum_cons, ih wt h', List.length_cons,
        Finset.sum_range_succ']
      simp only [List.getD_cons_succ, List.getD_cons_zero]
      ring

/-- The weight vector has 30 entries. -/
theorem weightsList_length : weightsList.length = 30 := by
  simp [weightsList]

/-- The weights 1 .. 30 sum to 465 = 30 * 31 / 2. -/
theorem weightsList_sum : weightsList.sum = 465 := by
  decide

/-- Entry k of the weight vector is k + 1. -/
theorem weightsList_getD (k : ℕ) (h : k < 30) : weightsList.getD k 0 = (k : ℚ) + 1 := by
  simp only [weightsList, List.getD_eq_getElem?_getD, List.getElem?_map,
    List.getElem?_range h, Option.map_some', Option.getD_some]
  push_cast
  ring

/-- The weighted-moving-average kernel on a 30-entry window, as a sum over
chronological positions with weight k + 1 at position k. -/
theorem wmaFn_eq (xs : List ℚ) (h : xs.length = 30) :
    wmaFn xs = (∑ k ∈ Finset.range 30, ((k : ℚ) + 1) * xs.getD k 0) / 465 := by
  unfold wmaFn
  rw [zipWith_mul_sum xs weightsList (by rw [h, weightsList_length]), weightsList_sum,
    weightsList_length]
  congr 1
  apply Finset.sum_congr rfl
  intro k hk
  rw [weightsList_getD k (Finset.mem_range.mp hk)]
  ring

/-- C6: after calculate_indicators with window 30, every present WMA cell
at position i equals the weighted mean of instrument B's open over rows
i - 30 .. i - 1 in which the row k positions back (k = 1 the most recent)
carries weight 31 - k, normalized by 465 = 30 * 31 / 2; the weights
strictly increase toward the most recent row and sum to 1 after
normalization. -/
theorem wma_weighted_window (df : List MergedRow) (i : ℕ) (r : Row) (v : ℚ)
    (h : (calculate_indicators df).get? i = some r) (hv : r.WMA_vix = some v) :
    30 ≤ i
    ∧ v = (∑ k ∈ Finset.Icc (1 : ℕ) 30,
        (31 - (k : ℚ)) * (df.map MergedRow.OPEN_vix).getD (i - k) 0) / 465
    ∧ (∀ k₁ k₂ : ℕ, 1 ≤ k₁ → k₁ < k₂ → k₂ ≤ 30 → (31 - (k₂ : ℚ)) < 31 - (k₁ : ℚ))
    ∧ (∑ k ∈ Finset.Icc (1 : ℕ) 30, (31 - (k : ℚ)) / 465) = 1 := by
  rw [List.get?_eq_getElem?] at h
  obtain ⟨hi, -, hwma⟩ := calculate_indicators_getElem? df i r h
  have hlen : i < (df.map MergedRow.OPEN_vix).length := by simpa using hi
  rw [shiftRolling_getElem? wmaFn _ i hlen] at hwma
  rw [hv] at hwma
  have h30 : 30 ≤ i := by
    by_contra hc
    rw [if_neg hc] at hwma
    exact absurd hwma (by simp)
  refine ⟨h30, ?_, ?_, ?_⟩
  · rw [if_pos h30] at hwma
    have hv' := Option.some.inj hwma
    have hwl : (((df.map MergedRow.OPEN_vix).drop (i - 30)).take 30).length = 30 :=
      window_length _ i h30 hlen
    rw [hv', wmaFn_eq _ hwl]
    congr 1
    have lhs_eq :
        ∑ k ∈ Finset.range 30,
            ((k : ℚ) + 1) * (((df.map MergedRow.OPEN_vix).drop (i - 30)).take 30).getD k 0
          = ∑ k ∈ Finset.range 30,
            ((k : ℚ) + 1) * (df.map MergedRow.OPEN_vix).getD (i - 30 + k) 0 := by
      apply Finset.sum_congr rfl
      intro k hk
      rw [window_getD _ i k (Finset.mem_range.mp hk)]
    have rhs_eq :
        ∑ k ∈ Finset.Icc (1 : ℕ) 30,
            (31 - (k : ℚ)) * (df.map MergedRow.OPEN_vix).getD (i - k) 0
          = ∑ k ∈ Finset.range 30,
            ((30 : ℚ) - k) * (df.map MergedRow.OPEN_vix).getD (i - (k + 1)) 0 := by
      rw [← Nat.Ico_succ_right, Finset.sum_Ico_eq_sum_range]
      apply Finset.sum_congr (by norm_num)
      intro k _
      have hc : ((1 + k : ℕ) : ℚ) = 1 + (k : ℚ) := by push_cast; ring
      rw [hc, Nat.add_comm 1 k]
      ring_nf
    rw [lhs_eq, rhs_eq]
    conv_rhs => rw [← Finset.sum_range_reflect
      (fun k => ((30 : ℚ) - k) * (df.map MergedRow.OPEN_vix).getD (i - (k + 1)) 0) 30]
    apply Finset.sum_congr rfl
    intro j hj
    have hj' : j < 30 := Finset.mem_range.mp hj
    have hidx : i - (30 - 1 - j + 1) = i - 30 + j := by omega
    have hcast : ((30 - 1 - j : ℕ) : ℚ) = 29 - (j : ℚ) := by
      have he : (30 - 1 - j : ℕ) = 29 - j := by omega
      rw [he, Nat.cast_sub (by omega)]
      norm_num
    simp only [hidx, hcast]
    ring
  · intro k₁ k₂ _ h12 _
    have hq : (k₁ : ℚ) < k₂ := by exact_mod_cast h12
    linarith
  · decide

/-- Witness for C6 on the concrete 31-row series dfW at position 30, where
the weighted mean of thirty copies of 20 is 20. -/
theorem wma_weighted_window_witness :
    (20 : ℚ) = (∑ k ∈ Finset.Icc (1 : ℕ) 30,
      (31 - (k : ℚ)) * (dfW.map MergedRow.OPEN_vix).getD (30 - k) 0) / 465 :=
  (wma_weighted_window dfW 30 rowW 20 (by decide) rfl).2.1

end Proofs
